import Mathlib

/-!
Verification of the qteasy simulation-and-search engine against its
natural-language specification.  The trade model of src/qteasy/finance.py
(class Cost) and the per-period step and full-history driver of
src/qteasy/core.py are embedded shallowly over the rationals: numpy
arrays become vectors `Fin n → ℚ`, elementwise numpy expressions become
pointwise definitions, `.sum()` becomes a finite sum, `np.trunc` becomes
truncation toward zero, and `np.fmax` becomes `max`.  Floating-point
values are modelled by exact rationals, so properties stated by the
specification as holding up to floating-point tolerance are proved as
exact identities.
-/

namespace QTeasy

/-- Truncation toward zero on rationals, the counterpart of numpy trunc. -/
def qtrunc (q : ℚ) : ℤ := if 0 ≤ q then ⌊q⌋ else ⌈q⌉

/-- Transaction-cost coefficients, mirroring the constructor of class Cost
in src/qteasy/finance.py (the source misspells slippage as slipage and the
embedding keeps that name). -/
structure Cost where
  buy_fix : ℚ
  sell_fix : ℚ
  buy_rate : ℚ
  sell_rate : ℚ
  buy_min : ℚ
  sell_min : ℚ
  slipage : ℚ
deriving DecidableEq

/-- Embedding of Cost.calculate of src/qteasy/finance.py, per instrument.
The source computes elementwise over an ndarray of trade values; here the
function takes one trade value.  In the rate mode with a non-zero sell_min,
the source sets the minimum-fee rate to zero whenever the division
-sell_min / trade_value produced an infinite float, which happens exactly
at trade value zero; the embedding makes that guard an explicit test.  In
the rate mode with non-zero buy_min the denominator is trade_value minus
buy_min, where the source produces an infinite float only at trade value
equal to buy_min, a point the theorems below do not touch. -/
def Cost.calculate (c : Cost) (is_buying fixed_fees : Bool) (v : ℚ) : ℚ :=
  if fixed_fees then
    if is_buying then c.buy_fix + c.slipage * v ^ 2
    else c.sell_fix + c.slipage * v ^ 2
  else
    if is_buying then
      if c.buy_min = 0 then c.buy_rate + c.slipage * v
      else max c.buy_rate (c.buy_min / (v - c.buy_min)) + c.slipage * v
    else
      if c.sell_min = 0 then c.sell_rate - c.slipage * v
      else max c.sell_rate (if v = 0 then 0 else -c.sell_min / v) + c.slipage * v

/-- Quantity actually sold for one instrument, the moq adjustment at the
head of Cost.get_selling_result: with a non-zero moq the planned quantity
is truncated to a whole multiple of moq. -/
def sellQty (moq a : ℚ) : ℚ :=
  if moq = 0 then a else (qtrunc (a / moq) : ℚ) * moq

/-- Return triple of Cost.get_selling_result. -/
structure SellResult (n : ℕ) where
  a_sold : Fin n → ℚ
  cash_gained : ℚ
  fee : ℚ

/-- Embedding of Cost.get_selling_result of src/qteasy/finance.py.  When
sell_fix is zero the fee is charged through per-instrument rates computed
on the sold values; otherwise a fixed fee is charged on every instrument
with a non-zero sold quantity and deducted from the proceeds. -/
def Cost.get_selling_result (c : Cost) {n : ℕ} (prices a_to_sell : Fin n → ℚ)
    (moq : ℚ) : SellResult n :=
  let a_sold : Fin n → ℚ := fun i => sellQty moq (a_to_sell i)
  let sold_values : Fin n → ℚ := fun i => a_sold i * prices i
  if c.sell_fix = 0 then
    { a_sold := a_sold
      cash_gained :=
        ∑ i, -1 * sold_values i * (1 - c.calculate false false (sold_values i))
      fee := -(∑ i, sold_values i * c.calculate false false (sold_values i)) }
  else
    let fee := ∑ i, if a_sold i ≠ 0 then c.calculate false true (sold_values i) else 0
    { a_sold := a_sold
      cash_gained := -(∑ i, sold_values i) - fee
      fee := fee }

/-- Quantity purchased for one instrument in the rate mode (buy_fix = 0) of
Cost.get_purchase_result: zero at a zero price, otherwise the cash to spend
divided by the fee-loaded price, truncated to a whole multiple of moq when
moq is non-zero. -/
def buyRateQty (c : Cost) (moq p ctb : ℚ) : ℚ :=
  let r := c.calculate true false ctb
  if p ≠ 0 then
    if moq = 0 then ctb / (p * (1 + r))
    else (qtrunc (ctb / (p * moq * (1 + r))) : ℚ) * moq
  else 0

/-- Fee charged on one instrument in the rate mode of
Cost.get_purchase_result: zero when nothing is bought, otherwise the rate
fee floored by buy_min. -/
def buyRateFeeI (c : Cost) (moq p ctb : ℚ) : ℚ :=
  let a := buyRateQty c moq p ctb
  if a = 0 then 0
  else max (a * p * c.calculate true false ctb) c.buy_min

/-- Cash flow of one instrument in the rate mode of
Cost.get_purchase_result: zero when nothing is bought, otherwise the
negated sum of the purchase value and the fee. -/
def buyRateCashI (c : Cost) (moq p ctb : ℚ) : ℚ :=
  let a := buyRateQty c moq p ctb
  if a = 0 then 0 else -(a * p + buyRateFeeI c moq p ctb)

/-- Quantity purchased for one instrument in the fixed-fee mode
(buy_fix non-zero) of Cost.get_purchase_result: the cash left after the
fixed fee buys shares at the raw price, truncated to moq multiples when
moq is non-zero and clipped below at zero. -/
def buyFixQty (c : Cost) (moq p ctb : ℚ) : ℚ :=
  let ff := c.calculate true true ctb
  max (if p ≠ 0 then
        if moq = 0 then (ctb - ff) / p
        else (qtrunc ((ctb - ff) / (p * moq)) : ℚ) * moq
      else 0) 0

/-- Fee charged on one instrument in the fixed-fee mode of
Cost.get_purchase_result. -/
def buyFixFeeI (c : Cost) (moq p ctb : ℚ) : ℚ :=
  if buyFixQty c moq p ctb = 0 then 0 else c.calculate true true ctb

/-- Cash flow of one instrument in the fixed-fee mode of
Cost.get_purchase_result. -/
def buyFixCashI (c : Cost) (moq p ctb : ℚ) : ℚ :=
  let a := buyFixQty c moq p ctb
  if a = 0 then 0 else -(a * p) - c.calculate true true ctb

/-- Return triple of Cost.get_purchase_result; cash_spent is returned
already summed, as in the source. -/
structure PurchaseResult (n : ℕ) where
  a_purchased : Fin n → ℚ
  cash_spent : ℚ
  fee : ℚ

/-- Embedding of Cost.get_purchase_result of src/qteasy/finance.py, built
from the per-instrument helpers above: the rate mode when buy_fix is zero,
the fixed-fee mode otherwise. -/
def Cost.get_purchase_result (c : Cost) {n : ℕ} (prices cash_to_spend : Fin n → ℚ)
    (moq : ℚ) : PurchaseResult n :=
  if c.buy_fix = 0 then
    { a_purchased := fun i => buyRateQty c moq (prices i) (cash_to_spend i)
      cash_spent := ∑ i, buyRateCashI c moq (prices i) (cash_to_spend i)
      fee := ∑ i, buyRateFeeI c moq (prices i) (cash_to_spend i) }
  else
    { a_purchased := fun i => buyFixQty c moq (prices i) (cash_to_spend i)
      cash_spent := ∑ i, buyFixCashI c moq (prices i) (cash_to_spend i)
      fee := ∑ i, buyFixFeeI c moq (prices i) (cash_to_spend i) }

/-- Pre-trade portfolio value of the step function of src/qteasy/core.py:
cash plus holdings at the prices of the period. -/
def pre_value_of {n : ℕ} (pre_cash : ℚ) (pre_amounts prices : Fin n → ℚ) : ℚ :=
  pre_cash + ∑ i, pre_amounts i * prices i

/-- Modelled from the spec: the per-period step of src/qteasy/core.py calls
Cost.get_selling_result with keyword arguments op and amounts of an older
interface that src/qteasy/finance.py no longer provides; following the sell
phase of the spec, the planned sell quantity of an instrument carrying a
negative signal is the signal times the held amount, and zero otherwise. -/
def amounts_to_sell {n : ℕ} (pre_amounts op : Fin n → ℚ) : Fin n → ℚ :=
  fun i => if op i < 0 then op i * pre_amounts i else 0

/-- Intended buy allocations of the buy phase of the step function: the
pre-trade value times the positive-clipped signal, scaled down
proportionally whenever the total exceeds the available cash. -/
def pur_values_of {n : ℕ} (pre_value cash : ℚ) (op : Fin n → ℚ) : Fin n → ℚ :=
  let pv : Fin n → ℚ := fun i => pre_value * max (op i) 0
  if (∑ i, pv i) > cash then fun i => pv i / (∑ j, pv j) * cash else pv

/-- Return tuple of the per-period step. -/
structure StepResult (n : ℕ) where
  cash : ℚ
  amounts : Fin n → ℚ
  fee : ℚ
  value : ℚ

/-- Embedding of the per-period trade step of src/qteasy/core.py: the sell
phase adds the proceeds to cash, the buy phase allocates the pre-trade
value by the positive signals with proportional scaling on insufficient
cash, and the returned value reprices the post-trade portfolio. -/
def loop_step (c : Cost) {n : ℕ} (moq pre_cash : ℚ)
    (pre_amounts op prices : Fin n → ℚ) : StepResult n :=
  let pre_value := pre_value_of pre_cash pre_amounts prices
  let sres := c.get_selling_result prices (amounts_to_sell pre_amounts op) moq
  let cash := pre_cash + sres.cash_gained
  let pres := c.get_purchase_result prices (pur_values_of pre_value cash op) moq
  let fee := pres.fee + sres.fee
  let amounts : Fin n → ℚ := fun i => pre_amounts i + pres.a_purchased i + sres.a_sold i
  let cash2 := cash + pres.cash_spent
  { cash := cash2
    amounts := amounts
    fee := fee
    value := (∑ i, amounts i * prices i) + cash2 }

/-- Selling is conservative: the value of the sold holdings, the cash
gained and the fee always cancel, in both fee modes of
Cost.get_selling_result. -/
theorem selling_conservation (c : Cost) {n : ℕ} (prices a_to_sell : Fin n → ℚ)
    (moq : ℚ) :
    (∑ i, (c.get_selling_result prices a_to_sell moq).a_sold i * prices i)
      + (c.get_selling_result prices a_to_sell moq).cash_gained
      + (c.get_selling_result prices a_to_sell moq).fee = 0 := by
  unfold Cost.get_selling_result
  by_cases h : c.sell_fix = 0 <;> simp only [h, if_true, if_false, reduceIte]
  · rw [← Finset.sum_add_distrib, ← Finset.sum_neg_distrib, ← Finset.sum_add_distrib]
    exact Finset.sum_eq_zero fun i _ => by ring
  · ring

/-- Purchasing is conservative: the value of the purchased holdings, the
cash spent and the fee always cancel, in both fee modes of
Cost.get_purchase_result. -/
theorem purchase_conservation (c : Cost) {n : ℕ} (prices cash_to_spend : Fin n → ℚ)
    (moq : ℚ) :
    (∑ i, (c.get_purchase_result prices cash_to_spend moq).a_purchased i * prices i)
      + (c.get_purchase_result prices cash_to_spend moq).cash_spent
      + (c.get_purchase_result prices cash_to_spend moq).fee = 0 := by
  unfold Cost.get_purchase_result
  by_cases h : c.buy_fix = 0 <;> simp only [h, if_true, if_false, reduceIte] <;>
    (rw [← Finset.sum_add_distrib, ← Finset.sum_add_distrib]
     refine Finset.sum_eq_zero fun i _ => ?_)
  · unfold buyRateCashI buyRateFeeI
    by_cases ha : buyRateQty c moq (prices i) (cash_to_spend i) = 0 <;>
      simp only [ha, if_true, if_false, reduceIte]
    · simp [ha]
    · ring
  · unfold buyFixCashI buyFixFeeI
    by_cases ha : buyFixQty c moq (prices i) (cash_to_spend i) = 0 <;>
      simp only [ha, if_true, if_false, reduceIte]
    · simp [ha]
    · ring

/-- C1: for every single simulation step, with no external cash injected
inside the step, the returned total value equals the pre-trade value minus
the total fee charged that step, for every combination of prices, signals,
holdings, cost coefficients and minimum order quantity.  Over the exact
rationals the identity is exact, hence within any floating-point
tolerance. -/
theorem loop_step_value_conservation (c : Cost) {n : ℕ} (moq pre_cash : ℚ)
    (pre_amounts op prices : Fin n → ℚ) :
    (loop_step c moq pre_cash pre_amounts op prices).value
      = pre_value_of pre_cash pre_amounts prices
        - (loop_step c moq pre_cash pre_amounts op prices).fee := by
  have hsell := selling_conservation c prices (amounts_to_sell pre_amounts op) moq
  have hpur := purchase_conservation c prices
    (pur_values_of (pre_value_of pre_cash pre_amounts prices)
      (pre_cash + (c.get_selling_result prices (amounts_to_sell pre_amounts op)
        moq).cash_gained) op) moq
  simp only [loop_step, pre_value_of] at *
  simp only [add_mul, Finset.sum_add_distrib]
  linarith [hsell, hpur]

/-- A fee-loaded purchase quantity at a nonnegative rate is nonnegative and
its gross spend at that rate stays within the allocated amount, for both
the divisible and the truncated-to-moq quantity. -/
theorem buy_spend_bound (R moq p ctb : ℚ) (hR : 0 ≤ R) (hmoq : 0 ≤ moq)
    (hppos : 0 < p) (hctb : 0 ≤ ctb) :
    0 ≤ (if moq = 0 then ctb / (p * (1 + R))
         else (qtrunc (ctb / (p * moq * (1 + R))) : ℚ) * moq)
    ∧ (if moq = 0 then ctb / (p * (1 + R))
       else (qtrunc (ctb / (p * moq * (1 + R))) : ℚ) * moq) * p * (1 + R)
        ≤ ctb := by
  have hr1 : (0 : ℚ) < 1 + R := by linarith
  by_cases hm : moq = 0
  · simp only [hm, if_true, reduceIte]
    constructor
    · positivity
    · rw [div_mul_eq_mul_div, div_mul_eq_mul_div, div_le_iff₀ (by positivity)]
      ring_nf
      nlinarith [hppos, hr1]
  · simp only [hm, if_false, reduceIte]
    have hmpos : 0 < moq := lt_of_le_of_ne hmoq (Ne.symm hm)
    have hxnn : 0 ≤ ctb / (p * moq * (1 + R)) := by positivity
    rw [qtrunc, if_pos hxnn]
    constructor
    · have := Int.floor_nonneg.mpr hxnn
      positivity
    · have hfl : ((⌊ctb / (p * moq * (1 + R))⌋ : ℚ))
          ≤ ctb / (p * moq * (1 + R)) := Int.floor_le _
      have hden : 0 < p * moq * (1 + R) := by positivity
      calc (⌊ctb / (p * moq * (1 + R))⌋ : ℚ) * moq * p * (1 + R)
          ≤ ctb / (p * moq * (1 + R)) * moq * p * (1 + R) := by
            have h2 : 0 < moq * p * (1 + R) := by positivity
            nlinarith [hfl, h2]
        _ = ctb := by field_simp; ring

/-- In the rate mode with zero minimum fee, nonnegative rate and
nonnegative slippage, one instrument never costs more cash than the amount
allocated to it. -/
theorem buyRateCashI_bound (c : Cost) (hbm : c.buy_min = 0)
    (hbr : 0 ≤ c.buy_rate) (hsl : 0 ≤ c.slipage) (moq p ctb : ℚ)
    (hmoq : 0 ≤ moq) (hp : 0 ≤ p) (hctb : 0 ≤ ctb) :
    -ctb ≤ buyRateCashI c moq p ctb := by
  have hr : c.calculate true false ctb = c.buy_rate + c.slipage * ctb := by
    simp [Cost.calculate, hbm]
  have hR : 0 ≤ c.calculate true false ctb := by
    rw [hr]
    exact add_nonneg hbr (mul_nonneg hsl hctb)
  by_cases ha : buyRateQty c moq p ctb = 0
  · simp only [buyRateCashI, ha, if_true, reduceIte]
    linarith
  · have hpne : p ≠ 0 := by
      intro hp0
      exact ha (by simp [buyRateQty, hp0])
    have hppos : 0 < p := lt_of_le_of_ne hp (Ne.symm hpne)
    simp only [buyRateCashI, buyRateFeeI, ha, if_false, reduceIte]
    have haq : buyRateQty c moq p ctb
        = (if moq = 0 then ctb / (p * (1 + c.calculate true false ctb))
           else (qtrunc (ctb / (p * moq * (1 + c.calculate true false ctb))) : ℚ)
             * moq) := by
      unfold buyRateQty
      rw [if_pos hpne]
    obtain ⟨hann, hale⟩ :=
      buy_spend_bound (c.calculate true false ctb) moq p ctb hR hmoq hppos hctb
    rw [← haq] at hann hale
    rw [hbm]
    have hfee : max (buyRateQty c moq p ctb * p * c.calculate true false ctb) 0
        = buyRateQty c moq p ctb * p * c.calculate true false ctb :=
      max_eq_left (mul_nonneg (mul_nonneg hann hppos.le) hR)
    rw [hfee]
    nlinarith [hann, hale, hctb]

/-- In the fixed-fee mode one instrument never costs more cash than the
amount allocated to it, for every fee value: whatever is bought is bought
out of the allocation left after the fixed fee. -/
theorem buyFixCashI_bound (c : Cost) (moq p ctb : ℚ) (hmoq : 0 ≤ moq)
    (hp : 0 ≤ p) (hctb : 0 ≤ ctb) : -ctb ≤ buyFixCashI c moq p ctb := by
  by_cases ha : buyFixQty c moq p ctb = 0
  · simp only [buyFixCashI, ha, if_true, reduceIte]
    linarith
  · have hpne : p ≠ 0 := by
      intro hp0
      exact ha (by simp [buyFixQty, hp0])
    have hppos : 0 < p := lt_of_le_of_ne hp (Ne.symm hpne)
    simp only [buyFixCashI, ha, if_false, reduceIte]
    have hq : buyFixQty c moq p ctb
        = max (if moq = 0 then (ctb - c.calculate true true ctb) / p
               else (qtrunc ((ctb - c.calculate true true ctb) / (p * moq)) : ℚ)
                 * moq) 0 := by
      simp only [buyFixQty]
      rw [if_pos hpne]
    have hEpos : 0 < (if moq = 0 then (ctb - c.calculate true true ctb) / p
        else (qtrunc ((ctb - c.calculate true true ctb) / (p * moq)) : ℚ) * moq) := by
      by_contra hcon
      push_neg at hcon
      exact ha (by rw [hq, max_eq_right hcon])
    have hqe : buyFixQty c moq p ctb
        = (if moq = 0 then (ctb - c.calculate true true ctb) / p
           else (qtrunc ((ctb - c.calculate true true ctb) / (p * moq)) : ℚ)
             * moq) := by
      rw [hq, max_eq_left hEpos.le]
    rw [hqe]
    by_cases hm : moq = 0
    · rw [if_pos hm] at hEpos ⊢
      have hcancel : (ctb - c.calculate true true ctb) / p * p
          = ctb - c.calculate true true ctb := div_mul_cancel₀ _ hpne
      rw [hcancel]
      linarith
    · rw [if_neg hm] at hEpos ⊢
      have hmpos : 0 < moq := lt_of_le_of_ne hmoq (Ne.symm hm)
      set x := (ctb - c.calculate true true ctb) / (p * moq) with hxdef
      have htr : 0 < (qtrunc x : ℚ) := by
        rcases mul_pos_iff.mp hEpos with ⟨h1, _⟩ | ⟨_, h2⟩
        · exact h1
        · linarith
      have hxnn : 0 ≤ x := by
        by_contra hneg
        push_neg at hneg
        have hc1 : qtrunc x ≤ 0 := by
          rw [qtrunc, if_neg (not_le.mpr hneg)]
          exact Int.ceil_le.mpr (by push_cast; linarith)
        have hc2 : (qtrunc x : ℚ) ≤ 0 := Int.cast_nonpos.mpr hc1
        linarith
      rw [qtrunc, if_pos hxnn]
      have hfl : ((⌊x⌋ : ℚ)) ≤ x := Int.floor_le _
      have hxmul : x * (p * moq) = ctb - c.calculate true true ctb := by
        rw [hxdef]
        field_simp
      have hb : ((⌊x⌋ : ℚ)) * moq * p ≤ ctb - c.calculate true true ctb := by
        nlinarith [mul_nonneg (sub_nonneg.mpr hfl) (le_of_lt (mul_pos hppos hmpos)),
          hxmul]
      linarith [hb]

/-- Every intended buy allocation is nonnegative when the pre-trade value
and the available cash are. -/
theorem pur_values_nonneg {n : ℕ} (V cash : ℚ) (op : Fin n → ℚ) (hV : 0 ≤ V)
    (hcash : 0 ≤ cash) (i : Fin n) : 0 ≤ pur_values_of V cash op i := by
  unfold pur_values_of
  by_cases h : (∑ i, V * max (op i) 0) > cash <;> simp only [h, if_true, if_false, reduceIte]
  · have hS : 0 < ∑ j, V * max (op j) 0 := lt_of_le_of_lt hcash h
    have : 0 ≤ V * max (op i) 0 := by positivity
    positivity
  · positivity

/-- When scaling is triggered the buy allocations are rescaled so that their
sum is exactly the available cash. -/
theorem pur_values_sum_eq {n : ℕ} (V cash : ℚ) (op : Fin n → ℚ)
    (hcash : 0 ≤ cash) (h : (∑ i, V * max (op i) 0) > cash) :
    ∑ i, pur_values_of V cash op i = cash := by
  unfold pur_values_of
  simp only [h, if_true, reduceIte]
  have hS : 0 < ∑ j, V * max (op j) 0 := lt_of_le_of_lt hcash h
  rw [← Finset.sum_mul, ← Finset.sum_div, div_self (ne_of_gt hS), one_mul]

/-- The total buy allocation never exceeds the available cash. -/
theorem pur_values_sum_le {n : ℕ} (V cash : ℚ) (op : Fin n → ℚ)
    (hcash : 0 ≤ cash) : ∑ i, pur_values_of V cash op i ≤ cash := by
  by_cases h : (∑ i, V * max (op i) 0) > cash
  · exact le_of_eq (pur_values_sum_eq V cash op hcash h)
  · unfold pur_values_of
    simp only [h, if_false, reduceIte]
    exact not_lt.mp h

/-- Cash available after the sell phase of the step, before any purchase. -/
def cash_after_sell (c : Cost) {n : ℕ} (moq pre_cash : ℚ)
    (pre_amounts op prices : Fin n → ℚ) : ℚ :=
  pre_cash + (c.get_selling_result prices (amounts_to_sell pre_amounts op) moq).cash_gained

/-- C2 (amended): when the total intended buy allocation exceeds the cash
available after the sell phase, the allocations are scaled proportionally
so that their sum equals the available cash; and the cash returned by the
step is nonnegative whenever the pre-trade value and the post-sell cash
are, provided the minimum-fee floor cannot apply: in the fixed-fee mode
(buy_fix non-zero) unconditionally, and in the rate mode when buy_min is
zero with nonnegative buy rate and slippage.  With a non-zero buy_min in
the rate mode the source can overdraw cash, see the counterexample. -/
theorem loop_step_buy_scaling_and_cash (c : Cost) {n : ℕ}
    (hmode : c.buy_fix ≠ 0 ∨ (c.buy_min = 0 ∧ 0 ≤ c.buy_rate ∧ 0 ≤ c.slipage))
    (moq pre_cash : ℚ) (pre_amounts op prices : Fin n → ℚ)
    (hmoq : 0 ≤ moq) (hp : ∀ i, 0 ≤ prices i)
    (hpv : 0 ≤ pre_value_of pre_cash pre_amounts prices)
    (hcash : 0 ≤ cash_after_sell c moq pre_cash pre_amounts op prices) :
    ((∑ i, pre_value_of pre_cash pre_amounts prices * max (op i) 0)
        > cash_after_sell c moq pre_cash pre_amounts op prices →
      ∑ i, pur_values_of (pre_value_of pre_cash pre_amounts prices)
          (cash_after_sell c moq pre_cash pre_amounts op prices) op i
        = cash_after_sell c moq pre_cash pre_amounts op prices)
    ∧ 0 ≤ (loop_step c moq pre_cash pre_amounts op prices).cash := by
  constructor
  · exact pur_values_sum_eq _ _ op hcash
  · have hfin : ∀ i : Fin n,
        0 ≤ pur_values_of (pre_value_of pre_cash pre_amounts prices)
          (cash_after_sell c moq pre_cash pre_amounts op prices) op i :=
      pur_values_nonneg _ _ op hpv hcash
    have hle := pur_values_sum_le (pre_value_of pre_cash pre_amounts prices)
      (cash_after_sell c moq pre_cash pre_amounts op prices) op hcash
    by_cases hbf : c.buy_fix = 0
    · obtain ⟨hbm, hbr, hsl⟩ : c.buy_min = 0 ∧ 0 ≤ c.buy_rate ∧ 0 ≤ c.slipage :=
        hmode.resolve_left fun hA => hA hbf
      have hbound : ∀ i ∈ Finset.univ,
          -(pur_values_of (pre_value_of pre_cash pre_amounts prices)
              (cash_after_sell c moq pre_cash pre_amounts op prices) op i)
            ≤ buyRateCashI c moq (prices i)
              (pur_values_of (pre_value_of pre_cash pre_amounts prices)
                (cash_after_sell c moq pre_cash pre_amounts op prices) op i) :=
        fun i _ =>
          buyRateCashI_bound c hbm hbr hsl moq (prices i) _ hmoq (hp i) (hfin i)
      have hsum := Finset.sum_le_sum hbound
      simp only [loop_step, Cost.get_purchase_result, hbf, if_true, reduceIte,
        cash_after_sell] at *
      rw [Finset.sum_neg_distrib] at hsum
      linarith
    · have hbound : ∀ i ∈ Finset.univ,
          -(pur_values_of (pre_value_of pre_cash pre_amounts prices)
              (cash_after_sell c moq pre_cash pre_amounts op prices) op i)
            ≤ buyFixCashI c moq (prices i)
              (pur_values_of (pre_value_of pre_cash pre_amounts prices)
                (cash_after_sell c moq pre_cash pre_amounts op prices) op i) :=
        fun i _ => buyFixCashI_bound c moq (prices i) _ hmoq (hp i) (hfin i)
      have hsum := Finset.sum_le_sum hbound
      simp only [loop_step, Cost.get_purchase_result, hbf, if_false, reduceIte,
        cash_after_sell] at *
      rw [Finset.sum_neg_distrib] at hsum
      linarith

/-- C2 (counterexample): with a non-zero minimum buy fee the buy phase
overdraws the cash even though the proportional-scaling rule was applied:
two instruments priced at 1, cash 2, signals 2, buy rate 0.003 and minimum
fee 5 leave a strictly negative cash balance after the step. -/
theorem loop_step_buy_overdraft_counterexample :
    (loop_step (Cost.mk 0 0 (3 / 1000) 0 5 0 0) (n := 2) 0 2
      (fun _ => 0) (fun _ => 2) (fun _ => 1)).cash < 0 := by
  simp only [loop_step, pre_value_of, amounts_to_sell, pur_values_of,
    Cost.get_selling_result, Cost.get_purchase_result, buyRateQty, buyRateCashI,
    buyRateFeeI, Cost.calculate, sellQty, qtrunc, Fin.sum_univ_two]
  norm_num

/-- Witness for the amended C2 theorem at a concrete step: zero-fee cost
model, one instrument priced 1, cash 10, signal 2. -/
theorem loop_step_buy_scaling_and_cash_witness :
    ((∑ i : Fin 1, pre_value_of (n := 1) 10 (fun _ => 0) (fun _ => 1)
          * max ((2 : ℚ)) 0)
        > cash_after_sell (Cost.mk 0 0 0 0 0 0 0) (n := 1) 0 10 (fun _ => 0)
            (fun _ => 2) (fun _ => 1) →
      ∑ i : Fin 1, pur_values_of (n := 1)
          (pre_value_of (n := 1) 10 (fun _ => 0) (fun _ => 1))
          (cash_after_sell (Cost.mk 0 0 0 0 0 0 0) (n := 1) 0 10 (fun _ => 0)
            (fun _ => 2) (fun _ => 1)) (fun _ => 2) i
        = cash_after_sell (Cost.mk 0 0 0 0 0 0 0) (n := 1) 0 10 (fun _ => 0)
            (fun _ => 2) (fun _ => 1))
    ∧ 0 ≤ (loop_step (Cost.mk 0 0 0 0 0 0 0) (n := 1) 0 10 (fun _ => 0)
        (fun _ => 2) (fun _ => 1)).cash := by
  refine loop_step_buy_scaling_and_cash (Cost.mk 0 0 0 0 0 0 0)
    (Or.inr ⟨rfl, le_rfl, le_rfl⟩) 0 10 _ _ _ le_rfl (fun i => by norm_num) ?_ ?_
  · norm_num [pre_value_of, Fin.sum_univ_one]
  · norm_num [cash_after_sell, Cost.get_selling_result, amounts_to_sell,
      sellQty, Cost.calculate, Fin.sum_univ_one]

/-- C4: with a non-zero minimum order quantity, the quantity sold by
Cost.get_selling_result, the quantity purchased by Cost.get_purchase_result
and the holdings change of the step are all exact integer multiples of the
minimum order quantity, at every instrument. -/
theorem moq_lot_size_invariant (c : Cost) {n : ℕ} (moq : ℚ) (hmoq : moq ≠ 0)
    (prices a_to_sell cash_to_spend pre_amounts op : Fin n → ℚ) (i : Fin n) :
    (∃ k : ℤ, (c.get_selling_result prices a_to_sell moq).a_sold i = k * moq)
    ∧ (∃ k : ℤ, (c.get_purchase_result prices cash_to_spend moq).a_purchased i
        = k * moq)
    ∧ (∃ k : ℤ, (loop_step c moq 0 pre_amounts op prices).amounts i
        - pre_amounts i = k * moq) := by
  have hsell : ∀ a : ℚ, ∃ k : ℤ, sellQty moq a = k * moq := by
    intro a
    exact ⟨qtrunc (a / moq), by simp [sellQty, hmoq]⟩
  have hbuy : ∀ p ctb : ℚ, ∃ k : ℤ,
      (if c.buy_fix = 0 then buyRateQty c moq p ctb else buyFixQty c moq p ctb)
        = k * moq := by
    intro p ctb
    by_cases hbf : c.buy_fix = 0 <;> simp only [hbf, if_true, if_false, reduceIte]
    · unfold buyRateQty
      by_cases hpz : p = 0
      · exact ⟨0, by simp [hpz]⟩
      · rw [if_pos hpz, if_neg hmoq]
        exact ⟨qtrunc (ctb / (p * moq * (1 + c.calculate true false ctb))), rfl⟩
    · simp only [buyFixQty]
      by_cases hpz : p = 0
      · exact ⟨0, by simp [hpz]⟩
      · rw [if_pos hpz, if_neg hmoq]
        rcases le_total ((qtrunc ((ctb - c.calculate true true ctb) / (p * moq)) : ℚ)
            * moq) 0 with h | h
        · exact ⟨0, by rw [max_eq_right h]; simp⟩
        · exact ⟨qtrunc ((ctb - c.calculate true true ctb) / (p * moq)),
            max_eq_left h⟩
  have hsold : ∃ k : ℤ, (c.get_selling_result prices a_to_sell moq).a_sold i
      = k * moq := by
    have : (c.get_selling_result prices a_to_sell moq).a_sold i
        = sellQty moq (a_to_sell i) := by
      unfold Cost.get_selling_result
      by_cases h : c.sell_fix = 0 <;> simp [h]
    rw [this]; exact hsell _
  have hpurch : ∀ (ctb : Fin n → ℚ), ∃ k : ℤ,
      (c.get_purchase_result prices ctb moq).a_purchased i = k * moq := by
    intro ctb
    have h2 := hbuy (prices i) (ctb i)
    unfold Cost.get_purchase_result
    by_cases h : c.buy_fix = 0 <;> simp only [h, if_true, if_false, reduceIte] at h2 ⊢
    · exact h2
    · exact h2
  refine ⟨hsold, hpurch cash_to_spend, ?_⟩
  have hst : (loop_step c moq 0 pre_amounts op prices).amounts i - pre_amounts i
      = (c.get_purchase_result prices
          (pur_values_of (pre_value_of 0 pre_amounts prices)
            (0 + (c.get_selling_result prices (amounts_to_sell pre_amounts op)
              moq).cash_gained) op) moq).a_purchased i
        + (c.get_selling_result prices (amounts_to_sell pre_amounts op)
            moq).a_sold i := by
    simp only [loop_step]
    ring
  rw [hst]
  obtain ⟨k1, hk1⟩ := hpurch (pur_values_of (pre_value_of 0 pre_amounts prices)
    (0 + (c.get_selling_result prices (amounts_to_sell pre_amounts op)
      moq).cash_gained) op)
  have hs2 : ∃ k : ℤ, (c.get_selling_result prices (amounts_to_sell pre_amounts op)
      moq).a_sold i = k * moq := by
    have : (c.get_selling_result prices (amounts_to_sell pre_amounts op) moq).a_sold i
        = sellQty moq (amounts_to_sell pre_amounts op i) := by
      unfold Cost.get_selling_result
      by_cases h : c.sell_fix = 0 <;> simp [h]
    rw [this]; exact hsell _
  obtain ⟨k2, hk2⟩ := hs2
  exact ⟨k1 + k2, by rw [hk1, hk2]; push_cast; ring⟩

/-- Witness for the C4 theorem with moq 2 and one instrument. -/
theorem moq_lot_size_invariant_witness :
    (∃ k : ℤ, ((Cost.mk 0 0 0 0 0 0 0).get_selling_result (n := 1)
        (fun _ => 1) (fun _ => -3) 2).a_sold 0 = k * 2)
    ∧ (∃ k : ℤ, ((Cost.mk 0 0 0 0 0 0 0).get_purchase_result (n := 1)
        (fun _ => 1) (fun _ => 5) 2).a_purchased 0 = k * 2)
    ∧ (∃ k : ℤ, (loop_step (Cost.mk 0 0 0 0 0 0 0) (n := 1) 2 0
        (fun _ => 1) (fun _ => -3) (fun _ => 1)).amounts 0 - (fun _ : Fin 1 => (1 : ℚ)) 0
        = k * 2) :=
  moq_lot_size_invariant (Cost.mk 0 0 0 0 0 0 0) 2 (by norm_num)
    (fun _ => 1) (fun _ => -3) (fun _ => 5) (fun _ => 1) (fun _ => -3) 0

/-- Modelled from the claim for C6: the rate that Cost.calculate would
return at a zero trade value if the minimum-fee rate were forced to zero
on both the buy side and the sell side. -/
def calculate_zero_guard_claim (c : Cost) (is_buying : Bool) : ℚ :=
  if is_buying then max c.buy_rate 0 else max c.sell_rate 0

/-- C6 (counterexample): at a zero trade value the buy-side minimum-fee
rate is not forced to zero; it equals buy_min / (0 - buy_min) = -1, which
is observable whenever the buy rate is negative. -/
theorem calculate_zero_value_counterexample :
    (Cost.mk 0 0 (-(1 / 2)) 0 5 1 0).calculate true false 0 = -(1 / 2)
    ∧ (Cost.mk 0 0 (-(1 / 2)) 0 5 1 0).calculate true false 0
        ≠ calculate_zero_guard_claim (Cost.mk 0 0 (-(1 / 2)) 0 5 1 0) true := by
  constructor <;> norm_num [Cost.calculate, calculate_zero_guard_claim, max_def]

/-- C6 (amended): at a zero trade value in the proportional-rate mode with
non-zero minimum fees, the sell side forces the minimum-fee rate to zero by
the isinf guard and returns max sell_rate 0, while the buy side needs no
guard because the denominator is -buy_min, and returns
max buy_rate (-1); both results are finite, deterministic rationals. -/
theorem calculate_zero_trade_value (c : Cost) (hbm : c.buy_min ≠ 0)
    (hsm : c.sell_min ≠ 0) :
    c.calculate false false 0 = max c.sell_rate 0
    ∧ c.calculate true false 0 = max c.buy_rate (-1) := by
  have hb : c.buy_min / (0 - c.buy_min) = -1 := by
    rw [zero_sub, div_neg, div_self hbm]
  unfold Cost.calculate
  simp [hbm, hsm, hb]

/-- Witness for the amended C6 theorem. -/
theorem calculate_zero_trade_value_witness :
    (Cost.mk 0 0 (3 / 1000) (1 / 1000) 5 1 0).calculate false false 0
        = max (1 / 1000 : ℚ) 0
    ∧ (Cost.mk 0 0 (3 / 1000) (1 / 1000) 5 1 0).calculate true false 0
        = max (3 / 1000 : ℚ) (-1) :=
  calculate_zero_trade_value (Cost.mk 0 0 (3 / 1000) (1 / 1000) 5 1 0)
    (by norm_num) (by norm_num)

/-- Modelled from the claim for C7: the sell-side rate computation with the
slippage term subtracted from the realized rate in both branches. -/
def calculate_sell_sub_claim (c : Cost) (v : ℚ) : ℚ :=
  if c.sell_min = 0 then c.sell_rate - c.slipage * v
  else max c.sell_rate (if v = 0 then 0 else -c.sell_min / v) - c.slipage * v

/-- C7 (counterexample): with a non-zero sell_min the source adds the
slippage term to the selling rate instead of subtracting it, so the
realized rate grows with the trade value: with sell_rate 0, sell_min 1 and
slippage 0.01 the rate at trade value 10 is 1/10, not the -(1/10) the
subtracted form would give, and it exceeds the rate at trade value 5. -/
theorem sell_slippage_counterexample :
    (Cost.mk 0 0 0 0 0 1 (1 / 100)).calculate false false 10 = 1 / 10
    ∧ calculate_sell_sub_claim (Cost.mk 0 0 0 0 0 1 (1 / 100)) 10 = -(1 / 10)
    ∧ (Cost.mk 0 0 0 0 0 1 (1 / 100)).calculate false false 5
        < (Cost.mk 0 0 0 0 0 1 (1 / 100)).calculate false false 10 := by
  refine ⟨?_, ?_, ?_⟩ <;> norm_num [Cost.calculate, calculate_sell_sub_claim, max_def]

/-- C7 (amended): the slippage term is subtracted from the realized selling
rate when sell_min is zero, so with a positive slippage coefficient the
selling rate strictly decreases as the trade value increases; with a
non-zero sell_min the source adds the term instead, see the
counterexample. -/
theorem sell_slippage_subtracts (c : Cost) (hsm : c.sell_min = 0)
    (hslp : 0 < c.slipage) (v1 v2 : ℚ) (h : v1 < v2) :
    c.calculate false false v2 < c.calculate false false v1 := by
  unfold Cost.calculate
  simp only [hsm, Bool.false_eq_true, if_false, if_true, reduceIte]
  nlinarith

/-- Witness for the amended C7 theorem. -/
theorem sell_slippage_subtracts_witness :
    (Cost.mk 0 0 0 (1 / 1000) 0 0 (1 / 100)).calculate false false 10
      < (Cost.mk 0 0 0 (1 / 1000) 0 0 (1 / 100)).calculate false false 5 :=
  sell_slippage_subtracts (Cost.mk 0 0 0 (1 / 1000) 0 0 (1 / 100)) rfl
    (by norm_num) 5 10 (by norm_num)

/-- C10: an instrument with price exactly zero is purchased in quantity
zero and contributes zero to the cash spent and to the fee, in the rate
mode and in the fixed-fee mode alike, for every moq. -/
theorem purchase_zero_price (c : Cost) {n : ℕ} (prices cash_to_spend : Fin n → ℚ)
    (moq : ℚ) (i : Fin n) (hp : prices i = 0) :
    (c.get_purchase_result prices cash_to_spend moq).a_purchased i = 0
    ∧ buyRateCashI c moq (prices i) (cash_to_spend i) = 0
    ∧ buyRateFeeI c moq (prices i) (cash_to_spend i) = 0
    ∧ buyFixCashI c moq (prices i) (cash_to_spend i) = 0
    ∧ buyFixFeeI c moq (prices i) (cash_to_spend i) = 0 := by
  have h1 : buyRateQty c moq (prices i) (cash_to_spend i) = 0 := by
    simp [buyRateQty, hp]
  have h2 : buyFixQty c moq (prices i) (cash_to_spend i) = 0 := by
    simp [buyFixQty, hp]
  refine ⟨?_, ?_, ?_, ?_, ?_⟩
  · unfold Cost.get_purchase_result
    by_cases hbf : c.buy_fix = 0 <;> simp [hbf, h1, h2]
  · simp [buyRateCashI, h1]
  · simp [buyRateFeeI, h1]
  · simp [buyFixCashI, h2]
  · simp [buyFixFeeI, h2]

/-- Witness for the C10 theorem: two instruments, the first priced zero,
with a non-zero moq. -/
theorem purchase_zero_price_witness :
    ((Cost.mk 0 0 (3 / 1000) 0 5 0 0).get_purchase_result (n := 2)
        (fun j => if j = 0 then 0 else 1) (fun _ => 100) 10).a_purchased 0 = 0
    ∧ buyRateCashI (Cost.mk 0 0 (3 / 1000) 0 5 0 0) 10
        ((fun j : Fin 2 => if j = 0 then (0 : ℚ) else 1) 0) ((fun _ : Fin 2 => (100 : ℚ)) 0) = 0
    ∧ buyRateFeeI (Cost.mk 0 0 (3 / 1000) 0 5 0 0) 10
        ((fun j : Fin 2 => if j = 0 then (0 : ℚ) else 1) 0) ((fun _ : Fin 2 => (100 : ℚ)) 0) = 0
    ∧ buyFixCashI (Cost.mk 0 0 (3 / 1000) 0 5 0 0) 10
        ((fun j : Fin 2 => if j = 0 then (0 : ℚ) else 1) 0) ((fun _ : Fin 2 => (100 : ℚ)) 0) = 0
    ∧ buyFixFeeI (Cost.mk 0 0 (3 / 1000) 0 5 0 0) 10
        ((fun j : Fin 2 => if j = 0 then (0 : ℚ) else 1) 0) ((fun _ : Fin 2 => (100 : ℚ)) 0) = 0 :=
  purchase_zero_price (Cost.mk 0 0 (3 / 1000) 0 5 0 0)
    (fun j => if j = 0 then 0 else 1) (fun _ => 100) 10 0 (by norm_num)

/-- Embedding of the head of the candidate evaluator
_get_parameter_performance of src/qteasy/core.py.  The external strategy
layer is modelled as a function create_signal from a parameter vector to
the regenerated signal table, and the remainder of the evaluation (the
simulated loop and the objective) as a function perf.  Scores live in
WithBot ℚ, whose bottom element stands for the negative infinity returned
by the source when the operation list is empty. -/
def get_parameter_performance {σ : Type} (create_signal : List ℚ → List σ)
    (perf : List σ → ℚ) (par : List ℚ) : WithBot ℚ :=
  let op_list := create_signal par
  if op_list.isEmpty then ⊥ else (perf op_list : WithBot ℚ)

/-- C8: a candidate parameter vector whose strategy produces no usable
signal (an empty operation list) is scored with the bottom element, the
worst possible score, rather than raising; the function is total, so the
enclosing search round continues over the remaining candidates. -/
theorem empty_signal_scores_bottom {σ : Type} (create_signal : List ℚ → List σ)
    (perf : List σ → ℚ) (par : List ℚ) (h : create_signal par = []) :
    get_parameter_performance create_signal perf par = ⊥
    ∧ ∀ y : WithBot ℚ, get_parameter_performance create_signal perf par ≤ y := by
  have hb : get_parameter_performance create_signal perf par = ⊥ := by
    simp [get_parameter_performance, h]
  exact ⟨hb, fun y => hb ▸ bot_le⟩

/-- Witness for the C8 theorem: a strategy that returns no signal for any
parameter vector. -/
theorem empty_signal_scores_bottom_witness :
    get_parameter_performance (fun _ : List ℚ => ([] : List ℚ)) (fun _ => 0) [1] = ⊥
    ∧ ∀ y : WithBot ℚ,
        get_parameter_performance (fun _ : List ℚ => ([] : List ℚ)) (fun _ => 0) [1] ≤ y :=
  empty_signal_scores_bottom (fun _ => []) (fun _ => 0) [1] rfl

/-- Modelled from the spec: the ResultPool used by the search algorithms.
The source of src/qteasy/core.py imports ResultPool from a module that is
not under src, so the container is modelled from the data-model and
testable-property sections of the spec: a bounded top-K container of
(parameter vector, score) entries with a configured capacity. -/
structure ResultPool where
  capacity : ℕ
  items : List (List ℚ × ℚ)

/-- Modelled from the spec: a freshly created pool is empty. -/
def ResultPool.create (capacity : ℕ) : ResultPool := ⟨capacity, []⟩

/-- Modelled from the spec: in_pool deposits one (vector, score) entry. -/
def ResultPool.in_pool (pool : ResultPool) (item : List ℚ × ℚ) : ResultPool :=
  ⟨pool.capacity, pool.items ++ [item]⟩

/-- Depositing a whole sequence of entries, one in_pool call each. -/
def ResultPool.in_pool_all (pool : ResultPool) (ps : List (List ℚ × ℚ)) : ResultPool :=
  ps.foldl ResultPool.in_pool pool

/-- Score ordering of the pool: when maximizing, higher scores come first;
when minimizing, lower scores come first. -/
def score_rel : Bool → (List ℚ × ℚ) → (List ℚ × ℚ) → Prop
  | true, a, b => b.2 ≤ a.2
  | false, a, b => a.2 ≤ b.2

instance score_rel_dec (m : Bool) : DecidableRel (score_rel m) := fun a b => by
  cases m <;> simp only [score_rel] <;> infer_instance

instance score_rel_total (m : Bool) : IsTotal (List ℚ × ℚ) (score_rel m) :=
  ⟨fun a b => by cases m <;> simp only [score_rel] <;> exact le_total _ _⟩

instance score_rel_trans (m : Bool) : IsTrans (List ℚ × ℚ) (score_rel m) :=
  ⟨fun a b c hab hbc => by
    cases m <;> simp only [score_rel] at * <;>
      first
      | exact le_trans hbc hab
      | exact le_trans hab hbc⟩

/-- Modelled from the spec: cut trims the pool to its configured capacity,
keeping the best-scoring entries sorted by score. -/
def ResultPool.cut (pool : ResultPool) (maximize : Bool) : ResultPool :=
  ⟨pool.capacity, (pool.items.insertionSort (score_rel maximize)).take pool.capacity⟩

/-- Depositing entries only appends them to the item list. -/
theorem in_pool_all_items (pool : ResultPool) (ps : List (List ℚ × ℚ)) :
    (pool.in_pool_all ps).items = pool.items ++ ps := by
  induction ps generalizing pool with
  | nil => simp [ResultPool.in_pool_all]
  | cons p ps ih =>
      simp only [ResultPool.in_pool_all, List.foldl_cons] at *
      rw [ih]
      simp [ResultPool.in_pool]

/-- Depositing entries never changes the configured capacity. -/
theorem in_pool_all_capacity (pool : ResultPool) (ps : List (List ℚ × ℚ)) :
    (pool.in_pool_all ps).capacity = pool.capacity := by
  induction ps generalizing pool with
  | nil => rfl
  | cons p ps ih =>
      simp only [ResultPool.in_pool_all, List.foldl_cons] at *
      rw [ih]
      rfl

/-- C9: after depositing any sequence of distinct (vector, score) entries
into a fresh pool and trimming, the pool holds exactly
min capacity (number inserted) entries, sorted by score (best first), and
the entries left outside score no better than any entry kept inside. -/
theorem result_pool_top_k (k : ℕ) (maximize : Bool) (ps : List (List ℚ × ℚ))
    (hnd : ps.Nodup) :
    (((ResultPool.create k).in_pool_all ps).cut maximize).items.length
        = min k ps.length
    ∧ (((ResultPool.create k).in_pool_all ps).cut maximize).items.Sorted
        (score_rel maximize)
    ∧ ∃ rest, ps.Perm
          ((((ResultPool.create k).in_pool_all ps).cut maximize).items ++ rest)
        ∧ ∀ x ∈ rest,
            ∀ y ∈ (((ResultPool.create k).in_pool_all ps).cut maximize).items,
              score_rel maximize y x := by
  clear hnd
  have hitems : ((ResultPool.create k).in_pool_all ps).items = ps := by
    rw [in_pool_all_items]
    rfl
  have hcap : ((ResultPool.create k).in_pool_all ps).capacity = k :=
    in_pool_all_capacity _ _
  have hsorted := List.sorted_insertionSort (score_rel maximize) ps
  have hperm := List.perm_insertionSort (score_rel maximize) ps
  refine ⟨?_, ?_, ?_⟩
  · simp only [ResultPool.cut, hitems, hcap]
    rw [List.length_take, List.length_insertionSort]
  · simp only [ResultPool.cut, hitems, hcap]
    exact List.Pairwise.sublist (List.take_sublist _ _) hsorted
  · refine ⟨(ps.insertionSort (score_rel maximize)).drop k, ?_, ?_⟩
    · simp only [ResultPool.cut, hitems, hcap]
      rw [List.take_append_drop]
      exact hperm.symm
    · simp only [ResultPool.cut, hitems, hcap]
      have hpw : List.Pairwise (score_rel maximize)
          (ps.insertionSort (score_rel maximize)) := hsorted
      rw [← List.take_append_drop k (ps.insertionSort (score_rel maximize)),
        List.pairwise_append] at hpw
      exact fun x hx y hy => hpw.2.2 y hy x hx

/-- Witness for the C9 theorem on a concrete insertion sequence. -/
theorem result_pool_top_k_witness :
    ((((ResultPool.create 2).in_pool_all [([1], 5), ([2], 7), ([3], 3)]).cut
          true).items.length = min 2 [([1], 5), ([2], 7), ([3], 3)].length)
    ∧ ((((ResultPool.create 2).in_pool_all
          [([1], 5), ([2], 7), ([3], 3)]).cut true).items.Sorted (score_rel true))
    ∧ ∃ rest, [([1], 5), ([2], 7), ([3], 3)].Perm
          (((((ResultPool.create 2).in_pool_all
            [([1], 5), ([2], 7), ([3], 3)]).cut true).items) ++ rest)
        ∧ ∀ x ∈ rest,
            ∀ y ∈ (((ResultPool.create 2).in_pool_all
              [([1], 5), ([2], 7), ([3], 3)]).cut true).items,
              score_rel true y x :=
  result_pool_top_k 2 true [([1], 5), ([2], 7), ([3], 3)] (by decide)

/-- One output row of the full-history driver. -/
structure LoopRecord (n : ℕ) where
  cash : ℚ
  amounts : Fin n → ℚ
  fee : ℚ
  value : ℚ

/-- Packaging of a step result as an output row of the driver. -/
def step_record {n : ℕ} (st : StepResult n) : LoopRecord n :=
  ⟨st.cash, st.amounts, st.fee, st.value⟩

/-- Recursive core of apply_loop of src/qteasy/core.py.  Each row is a
(date ordinal, signal row, price row) triple of the merged operation list;
i is the row position, prev the date of the previous row.  Mirroring the
source loop body: with a positive inflation rate the carried cash first
grows by 1 + elapsed_days * rate / 250 (the position-zero day difference
being zero), then the cash injected at this position is added, then the
per-period step runs.  The function invest maps a row position to the
amount injected there and to zero at positions that are not investment
positions, mirroring the membership test on the searchsorted positions of
the cash plan. -/
def apply_loop_rec (c : Cost) (moq ir : ℚ) {n : ℕ} (invest : ℕ → ℚ) :
    List (ℤ × (Fin n → ℚ) × (Fin n → ℚ)) → ℕ → ℤ → ℚ → (Fin n → ℚ) →
      List (LoopRecord n)
  | [], _, _, _, _ => []
  | (d, op, price) :: rest, i, prev, cash, amounts =>
      let dd : ℤ := if i = 0 then 0 else d - prev
      let cash1 := if 0 < ir then cash * (1 + (dd : ℚ) * ir / 250) else cash
      let cash2 := cash1 + invest i
      let st := loop_step c moq cash2 amounts op price
      step_record st :: apply_loop_rec c moq ir invest rest (i + 1) d st.cash st.amounts

/-- Embedding of apply_loop of src/qteasy/core.py: the driver starts with
zero cash and zero holdings and folds the per-period step over the merged
rows. -/
def apply_loop (c : Cost) (moq ir : ℚ) {n : ℕ} (invest : ℕ → ℚ)
    (rows : List (ℤ × (Fin n → ℚ) × (Fin n → ℚ))) : List (LoopRecord n) :=
  apply_loop_rec c moq ir invest rows 0 0 0 (fun _ => 0)

/-- The driver emits one output row per input row. -/
theorem apply_loop_rec_length (c : Cost) (moq ir : ℚ) {n : ℕ} (invest : ℕ → ℚ)
    (rows : List (ℤ × (Fin n → ℚ) × (Fin n → ℚ))) (i : ℕ) (prev : ℤ) (cash : ℚ)
    (amounts : Fin n → ℚ) :
    (apply_loop_rec c moq ir invest rows i prev cash amounts).length
      = rows.length := by
  induction rows generalizing i prev cash amounts with
  | nil => rfl
  | cons r rest ih =>
      obtain ⟨d, op, price⟩ := r
      simp only [apply_loop_rec, List.length_cons]
      rw [ih]

/-- Recurrence of apply_loop_rec beyond the first row: the record at
position j + 1 is the step applied to the previous record, with the
carried cash grown by 1 + elapsed_days * rate / 250 before the injection
at that position is added. -/
theorem apply_loop_rec_growth (c : Cost) (moq ir : ℚ) {n : ℕ} (invest : ℕ → ℚ)
    (hir : 0 < ir) :
    ∀ (rows : List (ℤ × (Fin n → ℚ) × (Fin n → ℚ))) (i : ℕ) (prev : ℤ)
      (cash : ℚ) (amounts : Fin n → ℚ) (j : ℕ) (d0 d1 : ℤ)
      (op0 op1 p0 p1 : Fin n → ℚ) (r0 : LoopRecord n),
      rows.get? j = some (d0, op0, p0) →
      rows.get? (j + 1) = some (d1, op1, p1) →
      (apply_loop_rec c moq ir invest rows i prev cash amounts).get? j = some r0 →
      (apply_loop_rec c moq ir invest rows i prev cash amounts).get? (j + 1)
        = some (step_record (loop_step c moq
            (r0.cash * (1 + ((d1 - d0 : ℤ) : ℚ) * ir / 250) + invest (i + j + 1))
            r0.amounts op1 p1)) := by
  intro rows
  induction rows with
  | nil => intro i prev cash amounts j d0 d1 op0 op1 p0 p1 r0 h0 h1 hr; cases h0
  | cons r rest ih =>
      intro i prev cash amounts j d0 d1 op0 op1 p0 p1 r0 h0 h1 hr
      obtain ⟨d, op, price⟩ := r
      match j with
      | 0 =>
          simp only [List.get?_cons_zero, Option.some.injEq, Prod.mk.injEq] at h0
          obtain ⟨hd0, hop0, hp0⟩ := h0
          simp only [List.get?_cons_succ] at h1
          simp only [apply_loop_rec, List.get?_cons_zero, Option.some.injEq] at hr
          simp only [apply_loop_rec, List.get?_cons_succ]
          match rest, h1 with
          | (d1x, op1x, p1x) :: rest2, h1 =>
            simp only [List.get?_cons_zero, Option.some.injEq, Prod.mk.injEq] at h1
            obtain ⟨hd1, hop1, hp1⟩ := h1
            simp only [apply_loop_rec, List.get?_cons_zero, Option.some.injEq]
            subst hd0 hd1 hop1 hp1
            rw [← hr]
            simp only [step_record, if_pos hir, Nat.add_eq, Nat.succ_ne_zero,
              if_false, reduceIte]
      | Nat.succ j' =>
          simp only [List.get?_cons_succ] at h0 h1
          simp only [apply_loop_rec, List.get?_cons_succ] at hr ⊢
          have := ih (i + 1) d
            (loop_step c moq
              ((if 0 < ir then cash * (1 + ((if i = 0 then 0 else d - prev : ℤ) : ℚ)
                  * ir / 250) else cash) + invest i) amounts op price).cash
            (loop_step c moq
              ((if 0 < ir then cash * (1 + ((if i = 0 then 0 else d - prev : ℤ) : ℚ)
                  * ir / 250) else cash) + invest i) amounts op price).amounts
            j' d0 d1 op0 op1 p0 p1 r0 h0 h1 hr
          rw [show i + 1 + j' + 1 = i + (j' + 1) + 1 from by omega] at this
          exact this

/-- C3 (amended): in the full-history driver with a positive configured
inflation rate, the record at each later period is the step applied to the
cash of the previous record multiplied by
1 + (elapsed_days_since_previous_period / 250) * annual_rate, with the
injection falling at that period added only after this growth; the divisor
in the source is 250, not the 365 stated by the claim, see the
counterexample. -/
theorem apply_loop_inflation_growth (c : Cost) (moq ir : ℚ) {n : ℕ}
    (invest : ℕ → ℚ) (rows : List (ℤ × (Fin n → ℚ) × (Fin n → ℚ)))
    (hir : 0 < ir) (j : ℕ) (d0 d1 : ℤ) (op0 op1 p0 p1 : Fin n → ℚ)
    (r0 : LoopRecord n) (h0 : rows.get? j = some (d0, op0, p0))
    (h1 : rows.get? (j + 1) = some (d1, op1, p1))
    (hr : (apply_loop c moq ir invest rows).get? j = some r0) :
    (apply_loop c moq ir invest rows).get? (j + 1)
      = some (step_record (loop_step c moq
          (r0.cash * (1 + ((d1 - d0 : ℤ) : ℚ) * ir / 250) + invest (j + 1))
          r0.amounts op1 p1)) := by
  have := apply_loop_rec_growth c moq ir invest hir rows 0 0 0 (fun _ => 0)
    j d0 d1 op0 op1 p0 p1 r0 h0 h1 hr
  simpa using this

/-- Modelled from the claim for C3: the per-period cash growth factor with
the elapsed days divided by 365 rather than by 250. -/
def claim_growth_factor (ir : ℚ) (d : ℤ) : ℚ := 1 + (d : ℚ) * ir / 365

/-- C3 (counterexample): two no-trade periods 7 days apart, zero cost
model, annual rate 1/10 and a single injection of 100 at the first
period: the driver records cash 100 * (1 + 7 * (1/10) / 250) = 2507/25 at
the second period, which differs from the claimed
100 * (1 + 7 * (1/10) / 365). -/
theorem apply_loop_inflation_counterexample :
    ((apply_loop (Cost.mk 0 0 0 0 0 0 0) 0 (1 / 10) (n := 1)
        (fun i => if i = 0 then 100 else 0)
        [(0, fun _ => 0, fun _ => 1), (7, fun _ => 0, fun _ => 1)]).get? 1).map
          LoopRecord.cash = some (2507 / 25)
    ∧ (2507 / 25 : ℚ) ≠ 100 * claim_growth_factor (1 / 10) 7 := by
  constructor
  · norm_num [apply_loop, apply_loop_rec, step_record, loop_step, pre_value_of,
      amounts_to_sell, pur_values_of, Cost.get_selling_result,
      Cost.get_purchase_result, sellQty, buyRateQty, buyRateCashI, buyRateFeeI,
      Cost.calculate, Fin.sum_univ_one]
  · norm_num [claim_growth_factor]

/-- Witness for the amended C3 theorem on the concrete two-period run. -/
theorem apply_loop_inflation_growth_witness :
    (apply_loop (Cost.mk 0 0 0 0 0 0 0) 0 (1 / 10) (n := 1)
        (fun i => if i = 0 then 100 else 0)
        [(0, fun _ => 0, fun _ => 1), (7, fun _ => 0, fun _ => 1)]).get? 1
      = some (step_record (loop_step (Cost.mk 0 0 0 0 0 0 0) (n := 1) 0
          ((step_record (loop_step (Cost.mk 0 0 0 0 0 0 0) (n := 1) 0 100
              (fun _ => 0) (fun _ => 0) (fun _ => 1))).cash
            * (1 + ((7 - 0 : ℤ) : ℚ) * (1 / 10) / 250) + 0)
          (step_record (loop_step (Cost.mk 0 0 0 0 0 0 0) (n := 1) 0 100
              (fun _ => 0) (fun _ => 0) (fun _ => 1))).amounts
          (fun _ => 0) (fun _ => 1))) :=
  apply_loop_inflation_growth (Cost.mk 0 0 0 0 0 0 0) 0 (1 / 10)
    (fun i => if i = 0 then 100 else 0)
    [(0, fun _ => 0, fun _ => 1), (7, fun _ => 0, fun _ => 1)]
    (by norm_num) 0 0 7 (fun _ => 0) (fun _ => 0) (fun _ => 1) (fun _ => 1)
    (step_record (loop_step (Cost.mk 0 0 0 0 0 0 0) (n := 1) 0 100
      (fun _ => 0) (fun _ => 0) (fun _ => 1)))
    rfl rfl (by norm_num [apply_loop, apply_loop_rec])

/-- Embedding of _merge_invest_dates of src/qteasy/core.py over an
abstract row payload: dates are day ordinals.  For every investment date
missing from the operation list the source assigns a row of zero signals
(op_list.loc[date] = 0 inside the except branch) instead of failing, and
then sorts the index; the membership test runs against the list grown so
far, as in the source loop. -/
def merge_invest_dates {α : Type} (zero_row : α)
    (op_list : List (ℤ × α)) (invest_dates : List ℤ) : List (ℤ × α) :=
  (invest_dates.foldl
    (fun acc d => if d ∈ acc.map Prod.fst then acc else acc ++ [(d, zero_row)])
    op_list).insertionSort (fun a b => a.1 ≤ b.1)

/-- C5: evaluating the merge at a funding date that is absent from the
operation list shows that the source silently inserts an all-zero signal
row for the misaligned date and returns normally; no rejection happens
before the simulation loop, contrary to the claim. -/
theorem merge_invest_dates_inserts_zero_row :
    merge_invest_dates (0 : ℚ) [((0 : ℤ), (5 : ℚ))] [3] = [(0, 5), (3, 0)] := by
  decide

end QTeasy
